import Mathlib

/-!
Verification of the secret-manager repository: a shallow embedding of the
data model (`src/models.rs`) and the operations of `src/main.rs`
(credential-expiry evaluation, the two application-fetch strategies, the
application-id parsing in `main`, and the mail-payload construction),
together with theorems settling the specification claims.

Timestamps (`chrono::DateTime<Utc>`) are modelled as integers counting
seconds; `chrono::Duration::days n` is `n * 86400` seconds.  Only the
order of instants and the addition of durations matter to the code.
-/

namespace SecretManager

/-- Instants in time, in seconds (a faithful image of the totally ordered
`DateTime<Utc>` values the code compares and offsets). -/
abbrev Instant := Int

/-- Embeds `chrono::Duration::days`, in seconds. -/
def Duration.days (n : Int) : Int := n * 86400

/-- Struct `PasswordCredential` of `src/models.rs`: `endDateTime` is the
required expiry instant, the other fields are optional and descriptive. -/
structure PasswordCredential where
  customKeyIdentifier : Option String
  endDateTime : Instant
  hint : Option String
  keyId : Option String
deriving DecidableEq

/-- Struct `Owner` of `src/models.rs`. -/
structure Owner where
  id : String
  displayName : Option String
  userPrincipalName : Option String
  mail : Option String
deriving DecidableEq

/-- Struct `Owners` of `src/models.rs`: the envelope of a list-owners
response, carrying the owner list in its `value` field. -/
structure Owners where
  value : List Owner
deriving DecidableEq

/-- Struct `App` of `src/models.rs`; `owners` is skipped by deserialization
and attached later via `insert_owners`. -/
structure App where
  id : String
  appId : Option String
  displayName : Option String
  passwordCredentials : List PasswordCredential
  owners : List Owner
deriving DecidableEq

/-- Method `App::insert_owners` of `src/models.rs`: replaces the `owners`
field. -/
def App.insert_owners (app : App) (owners : List Owner) : App :=
  { app with owners := owners }

/-- Rust `Debug` rendering of an `Option<String>` (`{:?}`), as used by the
`format!` in `check_expiring_credentials` (escaping of special characters
inside the string is not modelled). -/
def fmtDebugOpt : Option String → String
  | some s => "Some(\"" ++ s ++ "\")"
  | none => "None"

/-- Rendering of one expiring credential, from the `format!` call at
`src/main.rs:139-142`: key id and hint in `Debug` form, expiry via
`Display` (modelled as the decimal form of the instant). -/
def describeCredential (c : PasswordCredential) : String :=
  "Key ID: " ++ fmtDebugOpt c.keyId ++ ", Hint: " ++ fmtDebugOpt c.hint
    ++ ", Expiry: " ++ toString c.endDateTime

/-- Contact resolution for one owner, from the `if let` chain at
`src/main.rs:148-167`: `mail` if present, else `userPrincipalName`, else
nothing. -/
def ownerContact (o : Owner) : Option String :=
  match o.mail with
  | some mail => some mail
  | none =>
    match o.userPrincipalName with
    | some upn => some upn
    | none => none

/-- Contents of the `expiring_credential_info` vector after the credential
loop of `check_expiring_credentials` (`src/main.rs:128-173`): one rendered
description per credential with `endDateTime < threshold`, in credential
order. -/
def expiringInfo (threshold : Instant) (app : App) : List String :=
  (app.passwordCredentials.filter (fun c => decide (c.endDateTime < threshold))).map
    describeCredential

/-- Contents of the `owner_emails` vector after the credential loop of
`check_expiring_credentials`: the owner loop at `src/main.rs:145-171` runs
once per credential with `endDateTime < threshold`, each run appending the
resolved contact of every contactable owner in owner order. -/
def ownerEmails (threshold : Instant) (app : App) : List String :=
  (app.passwordCredentials.filter (fun c => decide (c.endDateTime < threshold))).flatMap
    (fun _ => app.owners.filterMap ownerContact)

/-- Function `check_expiring_credentials` of `src/main.rs:108-193`.  The
Rust function reads `now` from the system clock; here it is the explicit
second argument.  The threshold is `now` plus thirty days, the loop skips
applications with no credentials, and an alert triple
`(name, owner emails, expiring credential info)` is pushed exactly when
both collected vectors are non-empty.  The Rust return value is always
`Ok`, so the `anyhow::Result` wrapper is dropped. -/
def check_expiring_credentials (apps : List App) (now : Instant) :
    List (String × List String × List String) :=
  let threshold := now + Duration.days 30
  apps.filterMap (fun app =>
    if app.passwordCredentials.isEmpty then
      none
    else if !(expiringInfo threshold app).isEmpty
        && !(ownerEmails threshold app).isEmpty then
      some (app.displayName.getD "No Name",
            ownerEmails threshold app,
            expiringInfo threshold app)
    else
      none)

/-- Owner-contacts list of an alert as claim C3 and §4.4 of the spec
describe it, written from the spec's words for comparison with the code:
each contactable owner contributes exactly one entry, in owner order, with
no deduplication. -/
def specOwnerContacts (app : App) : List String :=
  app.owners.filterMap ownerContact

section EvaluatorLemmas

lemma flatMap_const {α β : Type} (l : List α) (xs : List β) :
    (l.flatMap fun _ => xs) = (List.replicate l.length xs).flatten := by
  induction l with
  | nil => rfl
  | cons a t ih => simp [List.flatMap_cons, List.replicate_succ, ih]

lemma flatten_replicate_length {β : Type} (n : Nat) (xs : List β) :
    ((List.replicate n xs).flatten).length = n * xs.length := by
  induction n with
  | zero => simp
  | succ m ih => simp [List.replicate_succ, ih, Nat.succ_mul, Nat.add_comm]

lemma ownerEmails_eq_flatten (threshold : Instant) (app : App) :
    ownerEmails threshold app =
      (List.replicate
        ((app.passwordCredentials.filter
            (fun c => decide (c.endDateTime < threshold))).length)
        (app.owners.filterMap ownerContact)).flatten :=
  flatMap_const _ _

lemma expiringInfo_isEmpty (threshold : Instant) (app : App) :
    (expiringInfo threshold app).isEmpty =
      !(app.passwordCredentials.any fun c => decide (c.endDateTime < threshold)) := by
  rw [Bool.eq_iff_iff]
  simp [expiringInfo, List.isEmpty_iff, List.map_eq_nil_iff, List.filter_eq_nil_iff,
    List.any_eq_false]

lemma flatten_replicate_eq_nil {β : Type} (n : Nat) (xs : List β) :
    (List.replicate n xs).flatten = [] ↔ n = 0 ∨ xs = [] := by
  induction n with
  | zero => simp
  | succ m ih => simp [List.replicate_succ, ih]; tauto

lemma ownerEmails_isEmpty (threshold : Instant) (app : App) :
    (ownerEmails threshold app).isEmpty =
      (!(app.passwordCredentials.any fun c => decide (c.endDateTime < threshold))
        || !(app.owners.any fun o => (ownerContact o).isSome)) := by
  rw [Bool.eq_iff_iff, ownerEmails_eq_flatten]
  simp only [List.isEmpty_iff, flatten_replicate_eq_nil, List.length_eq_zero,
    List.filter_eq_nil_iff, List.filterMap_eq_nil_iff, Bool.or_eq_true,
    Bool.not_eq_true', List.any_eq_false]
  constructor
  · rintro (h | h)
    · exact Or.inl h
    · refine Or.inr fun o ho => ?_
      simp [h o ho]
  · rintro (h | h)
    · exact Or.inl h
    · refine Or.inr fun o ho => ?_
      exact Option.not_isSome_iff_eq_none.mp (by simpa using h o ho)

/-- Predicate under which `check_expiring_credentials` emits an alert for
an application: some credential expires strictly before the threshold and
some owner is contactable. -/
def alertCond (threshold : Instant) (app : App) : Bool :=
  (app.passwordCredentials.any fun c => decide (c.endDateTime < threshold))
    && (app.owners.any fun o => (ownerContact o).isSome)

lemma cond_eq (threshold : Instant) (app : App) :
    (!(expiringInfo threshold app).isEmpty && !(ownerEmails threshold app).isEmpty)
      = alertCond threshold app := by
  rw [Bool.eq_iff_iff]
  simp only [Bool.and_eq_true, Bool.not_eq_true', expiringInfo_isEmpty,
    ownerEmails_isEmpty, alertCond, Bool.not_eq_false', Bool.or_eq_false_iff]
  tauto

lemma perApp_collapse (threshold : Instant) (app : App) :
    (if app.passwordCredentials.isEmpty then
        (none : Option (String × List String × List String))
      else if !(expiringInfo threshold app).isEmpty
          && !(ownerEmails threshold app).isEmpty then
        some (app.displayName.getD "No Name",
              ownerEmails threshold app, expiringInfo threshold app)
      else none)
    = (if alertCond threshold app then
        some (app.displayName.getD "No Name",
              ownerEmails threshold app, expiringInfo threshold app)
      else none) := by
  rw [cond_eq]
  by_cases hemp : app.passwordCredentials.isEmpty = true
  · have hnil : app.passwordCredentials = [] := List.isEmpty_iff.mp hemp
    simp [alertCond, hnil]
  · simp [hemp]

lemma filterMap_if {α β : Type} (p : α → Bool) (f : α → β) (l : List α) :
    l.filterMap (fun a => if p a then some (f a) else none) = (l.filter p).map f := by
  induction l with
  | nil => rfl
  | cons a t ih =>
    by_cases h : p a = true <;>
      simp [List.filterMap_cons, List.filter_cons, h, ih]

/-- Closed form of the evaluator: one alert per application satisfying
`alertCond`, in input order, carrying the rendered name, the collected
owner emails and the collected credential descriptions. -/
lemma check_eq (apps : List App) (now : Instant) :
    check_expiring_credentials apps now =
      (apps.filter (alertCond (now + Duration.days 30))).map
        (fun app => (app.displayName.getD "No Name",
                     ownerEmails (now + Duration.days 30) app,
                     expiringInfo (now + Duration.days 30) app)) := by
  unfold check_expiring_credentials
  rw [← filterMap_if]
  exact List.filterMap_congr fun app _ => perApp_collapse _ app

end EvaluatorLemmas

/-- Owner with both contact fields set, used as a concrete evaluator
input. -/
def cOwner : Owner :=
  { id := "o1", displayName := some "Olivia",
    userPrincipalName := some "b@x.com", mail := some "a@x.com" }

/-- Credential expiring at instant 5. -/
def cCredA : PasswordCredential :=
  { customKeyIdentifier := none, endDateTime := 5, hint := none, keyId := none }

/-- Credential expiring at instant 10. -/
def cCredB : PasswordCredential :=
  { customKeyIdentifier := none, endDateTime := 10, hint := none, keyId := none }

/-- Application with two credentials that both expire within the window
when `now = 0`, and a single contactable owner. -/
def cApp : App :=
  { id := "app1", appId := some "guid1", displayName := some "Foo",
    passwordCredentials := [cCredA, cCredB], owners := [cOwner] }

/-- Credential already expired at instant -5 (before `now = 0`). -/
def wCred : PasswordCredential :=
  { customKeyIdentifier := none, endDateTime := -5, hint := none, keyId := none }

/-- Application holding only the already-expired credential. -/
def wApp : App :=
  { id := "app2", appId := some "guid2", displayName := some "Bar",
    passwordCredentials := [wCred], owners := [cOwner] }

/-- C1: `check_expiring_credentials` returns exactly one alert per
application that has at least one credential expiring strictly before
`now + 30` days and at least one owner that resolves to a contact, in the
same relative order as the input; applications with no credentials, with
no qualifying credential, or with no resolved contact contribute no
alert. -/
theorem c1_one_alert_per_qualifying_app (apps : List App) (now : Instant) :
    check_expiring_credentials apps now =
      (apps.filter (fun app =>
        (app.passwordCredentials.any fun c => decide (c.endDateTime < now + Duration.days 30))
          && (app.owners.any fun o => (ownerContact o).isSome))).map
        (fun app => (app.displayName.getD "No Name",
                     ownerEmails (now + Duration.days 30) app,
                     expiringInfo (now + Duration.days 30) app)) :=
  check_eq apps now

/-- C2: a credential qualifies exactly when `endDateTime < now + 30` days
(strict comparison against the threshold): every alert's description list
is the rendering of exactly the strictly-below-threshold credentials, a
credential with `endDateTime >= now + 30` days is never among them, and a
credential already expired before `now` qualifies like any other. -/
theorem c2_strict_threshold (apps : List App) (now : Instant) :
    (∀ alert ∈ check_expiring_credentials apps now, ∃ app ∈ apps,
        alert.2.2 = (app.passwordCredentials.filter
            (fun c => decide (c.endDateTime < now + Duration.days 30))).map
          describeCredential)
    ∧ (∀ app : App, ∀ c ∈ app.passwordCredentials,
        now + Duration.days 30 ≤ c.endDateTime →
          c ∉ app.passwordCredentials.filter
            (fun c => decide (c.endDateTime < now + Duration.days 30)))
    ∧ (∀ app : App, ∀ c ∈ app.passwordCredentials,
        c.endDateTime < now →
          describeCredential c ∈ expiringInfo (now + Duration.days 30) app) := by
  refine ⟨?_, ?_, ?_⟩
  · intro alert halert
    rw [check_eq] at halert
    rcases List.mem_map.mp halert with ⟨app, happ, rfl⟩
    exact ⟨app, (List.mem_filter.mp happ).1, rfl⟩
  · intro app c _hc hge hmem
    have h2 := (List.mem_filter.mp hmem).2
    simp only [decide_eq_true_eq] at h2
    exact absurd h2 (not_lt.mpr hge)
  · intro app c hc hlt
    refine List.mem_map.mpr ⟨c, List.mem_filter.mpr ⟨hc, ?_⟩, rfl⟩
    have hd : (0 : Int) ≤ Duration.days 30 := by norm_num [Duration.days]
    exact decide_eq_true (lt_of_lt_of_le hlt (le_add_of_nonneg_right hd))

/-- C2 witness: with `now = 0`, the already-expired credential of `wApp`
(expiry -5) is rendered into that application's expiring list. -/
theorem c2_witness :
    describeCredential wCred ∈ expiringInfo (0 + Duration.days 30) wApp :=
  (c2_strict_threshold [wApp] 0).2.2 wApp wCred (by decide) (by decide)

/-- C3 counterexample: `cApp` has two qualifying credentials and one
contactable owner; the code collects the owner contact once per qualifying
credential, so the alert carries the contact twice, while the claim
predicts exactly one entry per contactable owner. -/
theorem c3_counterexample :
    ((check_expiring_credentials [cApp] 0).map fun a => a.2.1)
        = [["a@x.com", "a@x.com"]]
    ∧ specOwnerContacts cApp = ["a@x.com"]
    ∧ ((check_expiring_credentials [cApp] 0).map fun a => a.2.1)
        ≠ [specOwnerContacts cApp] := by
  refine ⟨by decide, by decide, by decide⟩

/-- C3 amended: an alert's owner-contacts list is the per-owner resolved
contact list (mail preferred, else userPrincipalName, uncontactable owners
dropped, owner order, no deduplication) repeated once per qualifying
credential and concatenated; its length is the number of qualifying
credentials times the number of contactable owners. -/
theorem c3_amended_contacts_per_credential (apps : List App) (now : Instant) :
    ∀ alert ∈ check_expiring_credentials apps now, ∃ app ∈ apps,
      alert.2.1 =
        (List.replicate
          ((app.passwordCredentials.filter
              (fun c => decide (c.endDateTime < now + Duration.days 30))).length)
          (specOwnerContacts app)).flatten
      ∧ alert.2.1.length =
          ((app.passwordCredentials.filter
              (fun c => decide (c.endDateTime < now + Duration.days 30))).length)
            * (specOwnerContacts app).length := by
  intro alert halert
  rw [check_eq] at halert
  rcases List.mem_map.mp halert with ⟨app, happ, rfl⟩
  refine ⟨app, (List.mem_filter.mp happ).1, ownerEmails_eq_flatten _ app, ?_⟩
  rw [ownerEmails_eq_flatten]
  exact flatten_replicate_length _ _

/-- C3 amended witness: the alert for `cApp` at `now = 0` carries the one
owner contact twice, matching two qualifying credentials times one
contactable owner. -/
theorem c3_amended_witness :
    ∃ app ∈ [cApp],
      (["a@x.com", "a@x.com"] : List String) =
        (List.replicate
          ((app.passwordCredentials.filter
              (fun c => decide (c.endDateTime < (0 : Instant) + Duration.days 30))).length)
          (specOwnerContacts app)).flatten
      ∧ (["a@x.com", "a@x.com"] : List String).length =
          ((app.passwordCredentials.filter
              (fun c => decide (c.endDateTime < (0 : Instant) + Duration.days 30))).length)
            * (specOwnerContacts app).length :=
  c3_amended_contacts_per_credential [cApp] 0
    ("Foo", ["a@x.com", "a@x.com"],
      ["Key ID: None, Hint: None, Expiry: 5", "Key ID: None, Hint: None, Expiry: 10"])
    (by decide)

/-- C4: per-owner contact resolution prefers `mail` over
`userPrincipalName`: both set resolves to `mail`, only
`userPrincipalName` set resolves to it, neither set resolves to no
entry. -/
theorem c4_contact_resolution (i : String) (d : Option String) (m u : String) :
    ownerContact { id := i, displayName := d, userPrincipalName := some u, mail := some m }
        = some m
    ∧ ownerContact { id := i, displayName := d, userPrincipalName := some u, mail := none }
        = some u
    ∧ ownerContact { id := i, displayName := d, userPrincipalName := none, mail := none }
        = none :=
  ⟨rfl, rfl, rfl⟩

/-- C5: `check_expiring_credentials` is a deterministic function of the
application list and of `now`: equal inputs give identical alert sequences
in order and content. -/
theorem c5_deterministic (apps₁ apps₂ : List App) (now₁ now₂ : Instant)
    (happs : apps₁ = apps₂) (hnow : now₁ = now₂) :
    check_expiring_credentials apps₁ now₁ = check_expiring_credentials apps₂ now₂ := by
  rw [happs, hnow]

/-- C5 witness: two evaluations of the same concrete input agree. -/
theorem c5_witness :
    check_expiring_credentials [cApp] 0 = check_expiring_credentials [cApp] 0 :=
  c5_deterministic [cApp] [cApp] 0 0 rfl rfl

/-- Rust `str::split(',')` at the character level: substrings between
commas, keeping empty segments; the empty string yields one empty
segment. -/
def splitComma : List Char → List (List Char)
  | [] => [[]]
  | c :: cs =>
    if c = ',' then [] :: splitComma cs
    else
      match splitComma cs with
      | [] => [[c]]
      | h :: t => (c :: h) :: t

/-- Rust `str::trim` at the character level: drop leading and trailing
whitespace characters. -/
def rustTrim (cs : List Char) : List Char :=
  ((cs.dropWhile Char.isWhitespace).reverse.dropWhile Char.isWhitespace).reverse

/-- String form of `rustTrim`, the model of `str::trim`. -/
def trimString (s : String) : String :=
  String.mk (rustTrim s.data)

/-- The application-id parsing of `main` at `src/main.rs:252-253`: split
the APPLICATION environment value on commas and trim each entry
(`app_ids.split(',').map(|s| s.trim().to_string()).collect()`). -/
def parseAppIds (s : String) : List String :=
  (splitComma s.data).map (fun cs => String.mk (rustTrim cs))

/-- Comma-separated source built from a list of entries, used to state
what parsing recovers. -/
def commaJoined (ids : List String) : String :=
  String.mk (List.intercalate [','] (ids.map String.data))

lemma splitComma_no_comma (cs : List Char) (h : ',' ∉ cs) :
    splitComma cs = [cs] := by
  induction cs with
  | nil => rfl
  | cons c t ih =>
    have hc : ¬ c = ',' := fun hcc => h (hcc ▸ List.mem_cons_self c t)
    have ht : ',' ∉ t := fun htt => h (List.mem_cons_of_mem c htt)
    simp [splitComma, hc, ih ht]

lemma splitComma_append (l r : List Char) (h : ',' ∉ l) :
    splitComma (l ++ ',' :: r) = l :: splitComma r := by
  induction l with
  | nil => simp [splitComma]
  | cons c t ih =>
    have hc : ¬ c = ',' := fun hcc => h (hcc ▸ List.mem_cons_self c t)
    have ht : ',' ∉ t := fun htt => h (List.mem_cons_of_mem c htt)
    simp [splitComma, hc, ih ht]

lemma splitComma_intercalate (a : List Char) (rest : List (List Char))
    (ha : ',' ∉ a) (hrest : ∀ x ∈ rest, ',' ∉ x) :
    splitComma (List.intercalate [','] (a :: rest)) = a :: rest := by
  induction rest generalizing a with
  | nil =>
    simpa [List.intercalate] using splitComma_no_comma a ha
  | cons b t ih =>
    have hstep : List.intercalate [','] (a :: b :: t)
        = a ++ ',' :: List.intercalate [','] (b :: t) := by
      simp [List.intercalate, List.intersperse_cons_cons]
    rw [hstep, splitComma_append _ _ ha,
      ih b (hrest b (List.mem_cons_self b t))
        (fun x hx => hrest x (List.mem_cons_of_mem b hx))]

/-- C6 counterexample: parsing the empty APPLICATION value yields a list
holding one empty-string id, not the empty sequence the claim states. -/
theorem c6_counterexample :
    parseAppIds "" = [""] ∧ parseAppIds "" ≠ ([] : List String) := by
  exact ⟨by decide, by decide⟩

/-- C6 amended: the id list is parsed from a comma-separated source with
each entry trimmed of surrounding whitespace; the empty input string
yields the one-element list holding the empty string (still not an
error). -/
theorem c6_amended_parse (ids : List String) (h : ∀ s ∈ ids, ',' ∉ s.data) :
    parseAppIds (commaJoined ids) =
      if ids.isEmpty then [""] else ids.map trimString := by
  cases ids with
  | nil => decide
  | cons a rest =>
    simp only [List.isEmpty_cons, if_neg (by decide : ¬ (false = true))]
    unfold parseAppIds commaJoined
    have hdata : (String.mk (List.intercalate [','] ((a :: rest).map String.data))).data
        = List.intercalate [','] ((a :: rest).map String.data) := rfl
    rw [hdata]
    have := splitComma_intercalate a.data (rest.map String.data)
      (h a (List.mem_cons_self a rest))
      (fun x hx => by
        rcases List.mem_map.mp hx with ⟨s, hs, rfl⟩
        exact h s (List.mem_cons_of_mem a hs))
    simp only [List.map_cons] at this ⊢
    rw [this]
    simp [List.map_map, trimString, Function.comp]

/-- C6 amended witness: a two-entry comma-separated value parses to the
trimmed entries. -/
theorem c6_witness :
    (∀ s ∈ (["a ", " b"] : List String), ',' ∉ s.data)
    ∧ parseAppIds (commaJoined ["a ", " b"]) =
        (if (["a ", " b"] : List String).isEmpty then [""]
         else (["a ", " b"] : List String).map trimString) :=
  ⟨by decide, c6_amended_parse ["a ", " b"] (by decide)⟩

/-- Outcome of the awaited owners call for one application during the bulk
fetch: the HTTP send can fail (propagated by the `?` at `src/main.rs:82`),
the body can fail to parse as `Owners` (skipped at `src/main.rs:85-94`),
or it parses. -/
inductive OwnersFetchOutcome where
  | sendFailed
  | parseFailed
  | parsed (os : Owners)
deriving DecidableEq

/-- Body of one page of the paged list-applications response as
`get_all_applications_with_filter` consumes it: `page.json()` can yield no
body (the inner loop runs zero times), the body's `value` field can fail
`as_array()` (unwrapped at `src/main.rs:67`), or it is an array of raw
records, each either parsing into `App` (`some`) or not (`none`,
`src/main.rs:68-74`). -/
inductive PageBody where
  | noBody
  | badEnvelope
  | withRecords (records : List (Option App))
deriving DecidableEq

/-- Environment of the bulk-filtered fetch: the pages the server returns
and the outcome of the owners call for each application id. -/
structure BulkEnv where
  pages : List PageBody
  ownersResult : String → OwnersFetchOutcome

/-- Result of a run of `get_all_applications_with_filter`: a value, an
error propagated by `?`, or a panic from `unwrap`. -/
inductive RunResult (α : Type) where
  | ok (val : α)
  | fetchError
  | panicked
deriving DecidableEq

/-- Inner record loop of `get_all_applications_with_filter`
(`src/main.rs:67-98`): a record that fails to parse is skipped, an owners
send failure propagates, an owners parse failure skips the application,
otherwise owners are attached and the application appended. -/
def processRecords (env : BulkEnv) (acc : List App) :
    List (Option App) → RunResult (List App)
  | [] => .ok acc
  | none :: rest => processRecords env acc rest
  | some app :: rest =>
    match env.ownersResult app.id with
    | .sendFailed => .fetchError
    | .parseFailed => processRecords env acc rest
    | .parsed os => processRecords env (acc ++ [app.insert_owners os.value]) rest

/-- Page loop of `get_all_applications_with_filter` (`src/main.rs:65-100`):
pages are consumed in order; a page whose `value` field is not an array
panics; record processing continues across pages. -/
def processPages (env : BulkEnv) (acc : List App) :
    List PageBody → RunResult (List App)
  | [] => .ok acc
  | PageBody.noBody :: rest => processPages env acc rest
  | PageBody.badEnvelope :: _ => .panicked
  | PageBody.withRecords rs :: rest =>
    match processRecords env acc rs with
    | .ok acc2 => processPages env acc2 rest
    | .fetchError => .fetchError
    | .panicked => .panicked

/-- Function `get_all_applications_with_filter` of `src/main.rs:45-105`,
as a function of the responses the server gives. -/
def get_all_applications_with_filter (env : BulkEnv) : RunResult (List App) :=
  processPages env [] env.pages

/-- Raw records carried by a page body (none for a missing body; a bad
envelope never yields records because it panics first). -/
def pageRecords : PageBody → List (Option App)
  | .withRecords rs => rs
  | _ => []

/-- Contribution of one raw record to the fetched list: parse failures and
owners-parse failures contribute nothing, otherwise the application with
its owners attached. -/
def hydrateRecord (env : BulkEnv) : Option App → Option App
  | none => none
  | some app =>
    match env.ownersResult app.id with
    | .parsed os => some (app.insert_owners os.value)
    | _ => none

lemma processRecords_ok (env : BulkEnv)
    (howners : ∀ id, env.ownersResult id ≠ OwnersFetchOutcome.sendFailed)
    (acc : List App) (rs : List (Option App)) :
    processRecords env acc rs = .ok (acc ++ rs.filterMap (hydrateRecord env)) := by
  induction rs generalizing acc with
  | nil => simp [processRecords]
  | cons r rest ih =>
    cases r with
    | none => simp [processRecords, List.filterMap_cons, hydrateRecord, ih]
    | some app =>
      cases hres : env.ownersResult app.id with
      | sendFailed => exact absurd hres (howners app.id)
      | parseFailed =>
        simp [processRecords, hres, List.filterMap_cons, hydrateRecord, ih]
      | parsed os =>
        simp [processRecords, hres, List.filterMap_cons, hydrateRecord, ih]

lemma processPages_ok (env : BulkEnv)
    (howners : ∀ id, env.ownersResult id ≠ OwnersFetchOutcome.sendFailed)
    (acc : List App) (pages : List PageBody)
    (hpages : ∀ p ∈ pages, p ≠ PageBody.badEnvelope) :
    processPages env acc pages =
      .ok (acc ++ (pages.flatMap pageRecords).filterMap (hydrateRecord env)) := by
  induction pages generalizing acc with
  | nil => simp [processPages]
  | cons p rest ih =>
    have hrest : ∀ q ∈ rest, q ≠ PageBody.badEnvelope :=
      fun q hq => hpages q (List.mem_cons_of_mem p hq)
    cases p with
    | noBody => simp [processPages, pageRecords, List.flatMap_cons, ih _ hrest]
    | badEnvelope => exact absurd rfl (hpages _ (List.mem_cons_self _ _))
    | withRecords rs =>
      simp [processPages, processRecords_ok env howners, pageRecords,
        List.flatMap_cons, ih _ hrest]

/-- C7: in bulk-filtered mode, when every page is well-shaped and no
owners send fails, raw records that fail to parse are skipped without
aborting the page or the run, applications whose owners response fails to
parse are dropped entirely, and everything else is fetched in order across
all pages. -/
theorem c7_bulk_skip (env : BulkEnv)
    (hpages : ∀ p ∈ env.pages, p ≠ PageBody.badEnvelope)
    (howners : ∀ id, env.ownersResult id ≠ OwnersFetchOutcome.sendFailed) :
    get_all_applications_with_filter env =
      RunResult.ok ((env.pages.flatMap pageRecords).filterMap (hydrateRecord env)) := by
  unfold get_all_applications_with_filter
  simpa using processPages_ok env howners [] env.pages hpages

/-- Well-formed raw application records for the bulk-fetch scenarios. -/
def bApp1 : App :=
  { id := "b1", appId := some "g1", displayName := some "BulkOne",
    passwordCredentials := [cCredA], owners := [] }

/-- Second well-formed raw application record. -/
def bApp2 : App :=
  { id := "b2", appId := some "g2", displayName := some "BulkTwo",
    passwordCredentials := [cCredB], owners := [] }

/-- Bulk environment whose first page holds one malformed and one
well-formed record and whose second page holds another record; all owners
calls succeed. -/
def env7 : BulkEnv :=
  { pages := [PageBody.withRecords [none, some bApp1],
              PageBody.withRecords [some bApp2]],
    ownersResult := fun _ => OwnersFetchOutcome.parsed { value := [cOwner] } }

/-- C7 witness: the page with a malformed record still yields its one
well-formed application, and the run continues to the next page. -/
theorem c7_witness :
    get_all_applications_with_filter env7 =
      RunResult.ok [bApp1.insert_owners [cOwner], bApp2.insert_owners [cOwner]] := by
  have h := c7_bulk_skip env7 (by decide)
    (fun id => by simp [env7])
  rw [h]
  decide

/-- Bulk environment whose second page has a body whose `value` field is
not an array; the third page is well-formed and would contribute an
application if the bad page were skipped. -/
def env10 : BulkEnv :=
  { pages := [PageBody.withRecords [some bApp1],
              PageBody.badEnvelope,
              PageBody.withRecords [some bApp2]],
    ownersResult := fun _ => OwnersFetchOutcome.parsed { value := [cOwner] } }

/-- C10: a page whose body lacks an array `value` field makes
`get_all_applications_with_filter` panic (the `unwrap` at
`src/main.rs:67`) and abort the run; it does not skip the page and
continue, so the record-level resilience does not extend to malformed page
envelopes. -/
theorem c10_bad_envelope_panics :
    get_all_applications_with_filter env10 = RunResult.panicked
    ∧ get_all_applications_with_filter env10 ≠
        RunResult.ok ((env10.pages.flatMap pageRecords).filterMap (hydrateRecord env10)) := by
  exact ⟨by decide, by decide⟩

/-- Environment of the explicit-id fetch: the four awaited steps the loop
of `get_applications_with_owners` performs for an id — send the
application request, parse its JSON body into `App`, send the owners
request, parse its body into `Owners`.  Raw bodies are strings; every step
returns `Except` because every one is awaited with `?` in the source. -/
structure IdFetchEnv where
  sendApplication : String → Except String String
  appFromJson : String → Except String App
  sendOwners : String → Except String String
  ownersFromJson : String → Except String Owners

/-- Loop body of `get_applications_with_owners` (`src/main.rs:18-40`) for
one id: fetch and parse the application, fetch and parse its owners,
attach the owners.  Any failing step propagates. -/
def fetchAppWithOwners (env : IdFetchEnv) (id : String) : Except String App := do
  let resp ← env.sendApplication id
  let app ← env.appFromJson resp
  let oresp ← env.sendOwners id
  let owners ← env.ownersFromJson oresp
  pure (app.insert_owners owners.value)

/-- Function `get_applications_with_owners` of `src/main.rs:13-43`: the
ids are processed in order, each fully fetched application is pushed, and
the first failure of any step propagates as the result of the whole
call. -/
def get_applications_with_owners (env : IdFetchEnv) :
    List String → Except String (List App)
  | [] => .ok []
  | id :: rest => do
    let app ← fetchAppWithOwners env id
    let apps ← get_applications_with_owners env rest
    pure (app :: apps)

/-- C8: explicit-id fetch is all-or-nothing and order-preserving: the call
returns `ok` exactly when every id's application fetch, application parse,
owners fetch and owners parse succeed, and then the i-th output is the
hydrated application of the i-th input id. -/
theorem c8_all_or_nothing (env : IdFetchEnv) (ids : List String) :
    ((∃ apps, get_applications_with_owners env ids = Except.ok apps)
      ↔ ∀ id ∈ ids, ∃ app, fetchAppWithOwners env id = Except.ok app)
    ∧ ∀ apps, get_applications_with_owners env ids = Except.ok apps →
        apps.length = ids.length
        ∧ ∀ i (hi : i < ids.length) (hj : i < apps.length),
            fetchAppWithOwners env (ids.get ⟨i, hi⟩) = Except.ok (apps.get ⟨i, hj⟩) := by
  induction ids with
  | nil =>
    refine ⟨⟨fun _ id hid => absurd hid (List.not_mem_nil id), fun _ => ⟨[], rfl⟩⟩, ?_⟩
    intro apps happs
    cases happs
    exact ⟨rfl, fun i hi _ => absurd hi (Nat.not_lt_zero i)⟩
  | cons id rest ih =>
    obtain ⟨ih1, ih2⟩ := ih
    cases hfa : fetchAppWithOwners env id with
    | error e =>
      have hrun : get_applications_with_owners env (id :: rest) = Except.error e := by
        simp [get_applications_with_owners, hfa, Bind.bind, Except.bind, Functor.map, Except.map, Pure.pure, Except.pure]
      refine ⟨⟨?_, ?_⟩, ?_⟩
      · rintro ⟨apps, happs⟩
        rw [hrun] at happs
        cases happs
      · intro hall
        obtain ⟨app, happ⟩ := hall id (List.mem_cons_self id rest)
        rw [happ] at hfa
        cases hfa
      · intro apps happs
        rw [hrun] at happs
        cases happs
    | ok app =>
      cases hrest : get_applications_with_owners env rest with
      | error e =>
        have hrun : get_applications_with_owners env (id :: rest) = Except.error e := by
          simp [get_applications_with_owners, hfa, hrest, Bind.bind, Except.bind, Functor.map, Except.map, Pure.pure, Except.pure]
        refine ⟨⟨?_, ?_⟩, ?_⟩
        · rintro ⟨apps, happs⟩
          rw [hrun] at happs
          cases happs
        · intro hall
          have hall' : ∀ i ∈ rest, ∃ a, fetchAppWithOwners env i = Except.ok a :=
            fun i hi => hall i (List.mem_cons_of_mem id hi)
          obtain ⟨apps, happs⟩ := ih1.mpr hall'
          rw [happs] at hrest
          cases hrest
        · intro apps happs
          rw [hrun] at happs
          cases happs
      | ok apps =>
        have hrun : get_applications_with_owners env (id :: rest)
            = Except.ok (app :: apps) := by
          simp [get_applications_with_owners, hfa, hrest, Bind.bind, Except.bind, Functor.map, Except.map, Pure.pure, Except.pure]
        obtain ⟨hlen, hidx⟩ := ih2 apps hrest
        refine ⟨⟨fun _ => ?_, fun _ => ⟨app :: apps, hrun⟩⟩, ?_⟩
        · intro i hi
          rcases List.mem_cons.mp hi with rfl | hmem
          · exact ⟨app, hfa⟩
          · exact ih1.mp ⟨apps, hrest⟩ i hmem
        · intro apps' happs'
          rw [hrun] at happs'
          cases happs'
          refine ⟨by simp [hlen], ?_⟩
          intro i hi hj
          cases i with
          | zero => exact hfa
          | succ n =>
            exact hidx n (Nat.lt_of_succ_lt_succ hi) (Nat.lt_of_succ_lt_succ hj)

/-- Explicit-id environment where every step succeeds and yields
`bApp1` with owner `cOwner`. -/
def env8ok : IdFetchEnv :=
  { sendApplication := fun _ => Except.ok "appBody",
    appFromJson := fun _ => Except.ok bApp1,
    sendOwners := fun _ => Except.ok "ownersBody",
    ownersFromJson := fun _ => Except.ok { value := [cOwner] } }

/-- C8 witness: on a one-id input where every step succeeds, the
output's first element is the hydrated application of that id. -/
theorem c8_witness :
    fetchAppWithOwners env8ok "x" = Except.ok (bApp1.insert_owners [cOwner]) := by
  have h := (c8_all_or_nothing env8ok ["x"]).2 [bApp1.insert_owners [cOwner]] rfl
  exact h.2 0 (by decide) (by decide)

/-- Message part of the `send_mail` JSON body built at
`src/main.rs:214-232`. -/
structure MailMessage where
  subject : String
  contentType : String
  content : String
  toRecipients : List String
  saveToSentItems : String
deriving DecidableEq

/-- Function `send_email_alert` of `src/main.rs:195-238`, reduced to the
outbound payload it constructs: the mailbox the mail is sent as (the
ALERTING_EMAIL configuration value) paired with the message body.  The
RECIEVER_EMAIL configuration value is the only recipient; the
`owner_emails` argument is taken, as in the source, but used nowhere in
the payload. -/
def send_email_alert (alerting_email reciever_email : String) (app_name : String)
    (owner_emails : List String) (expiring_credentials : List String) :
    String × MailMessage :=
  (alerting_email,
   { subject := "Alert: Expiring Credentials for Application"
     contentType := "Text"
     content := "The application '" ++ app_name
       ++ "' has credentials expiring soon. Please review and take necessary action.\n\nExpiring Credentials:\n"
       ++ String.intercalate "\n" expiring_credentials
     toRecipients := [reciever_email]
     saveToSentItems := "true" })

/-- C9: the recipient list of the constructed mail is exactly the single
configured RECIEVER_EMAIL address, the whole payload is independent of the
alert's owner contacts, and an owner contact distinct from that address
never occurs among the recipients. -/
theorem c9_fixed_recipient (alerting_email reciever_email app_name : String)
    (owner_emails expiring_credentials : List String) :
    (send_email_alert alerting_email reciever_email app_name owner_emails
        expiring_credentials).2.toRecipients = [reciever_email]
    ∧ (∀ other_owner_emails : List String,
        send_email_alert alerting_email reciever_email app_name owner_emails
            expiring_credentials
          = send_email_alert alerting_email reciever_email app_name
              other_owner_emails expiring_credentials)
    ∧ ∀ e ∈ owner_emails, e ≠ reciever_email →
        e ∉ (send_email_alert alerting_email reciever_email app_name owner_emails
              expiring_credentials).2.toRecipients := by
  refine ⟨rfl, fun _ => rfl, ?_⟩
  intro e _he hne hmem
  exact hne (by simpa [send_email_alert] using hmem)

/-- C9 witness: with a concrete owner contact differing from the
configured recipient, the recipients are exactly the configured address
and the owner contact is not among them. -/
theorem c9_witness :
    (send_email_alert "ops@corp.com" "audit@corp.com" "Foo" ["a@x.com"]
        ["d1"]).2.toRecipients = ["audit@corp.com"]
    ∧ "a@x.com" ∉ (send_email_alert "ops@corp.com" "audit@corp.com" "Foo"
        ["a@x.com"] ["d1"]).2.toRecipients :=
  ⟨(c9_fixed_recipient "ops@corp.com" "audit@corp.com" "Foo" ["a@x.com"] ["d1"]).1,
   (c9_fixed_recipient "ops@corp.com" "audit@corp.com" "Foo" ["a@x.com"] ["d1"]).2.2
     "a@x.com" (by decide) (by decide)⟩

end SecretManager
